import Mathlib

/-!
Shallow embedding of `src/check_changes.go` (the `compareVersions` pipeline of
the unicode-idn-diff repository) and verification of its specification claims.

Modelling conventions, matching the Go source:
* Codepoints are the integers obtained by `hexToInt` from the map keys; maps
  keyed by hex strings are modelled keyed by `Nat` (the `%04X` / `hexToInt`
  round trip is the identity on the canonical key forms the loaders produce).
* A Go map read with the comma-ok form (`properties1[cp]`, line 182) is a
  `Nat → Option String`; a read without it returns the zero value on a missing
  key, so `generalCategory1/2`, `properties2`, `codePointNames2` are total
  functions with default `""` and `nfk1/2` total with default `[]`.
* The single `strings.Builder` buffer is modelled as a `List String` whose
  elements are exactly the strings passed to `Fprintf`/`Fprintln` in program
  order (newlines included); the printed report is their concatenation.
* `fmt.Printf` to the console (the operator log) is not part of the durable
  report buffer and is not modelled.
* Go's `changeCounts` map with `changeCounts[k]++` is modelled as an
  association list in first-insertion order (`bump`); its iteration by
  `range` is an arbitrary permutation, which the determinism theorem
  quantifies over.
* `sort.Ints`, `sort.Strings` and `sort.Slice` are deterministic comparison
  sorts; they are modelled by `sortBy` (insertion sort).  For `sort.Slice`,
  which Go does not document as stable, the Appendix E theorem proves that
  every permutation sorted by the comparator coincides with `sortBy`'s
  output on the lists this program actually sorts, so the choice of sorting
  algorithm is observationally irrelevant.
-/

namespace CheckChanges

/-- One uppercase hexadecimal digit, as produced by Go's `%X` verb. -/
def hexChar (n : Nat) : Char :=
  if n < 10 then Char.ofNat (48 + n) else Char.ofNat (55 + n)

/-- Fuel-driven most-significant-first hex digit expansion (structural
recursion so that it reduces inside the kernel). -/
def hexDigitsAux : Nat → Nat → List Char
  | 0, _ => []
  | fuel + 1, n =>
    if n < 16 then [hexChar n]
    else hexDigitsAux fuel (n / 16) ++ [hexChar (n % 16)]

/-- Go's `fmt.Sprintf("%04X", n)`: uppercase hex, zero-padded to at least
four digits. -/
def fmt04X (n : Nat) : String :=
  let ds := hexDigitsAux (n + 1) n
  ⟨List.replicate (4 - ds.length) '0' ++ ds⟩

/-- The `Entry` struct of check_changes.go (line 18): a codepoint number and
the Appendix E label text stored with it. -/
structure Entry where
  Number : Nat
  Name : String
deriving DecidableEq, Repr

/-- The in-memory tables `compareVersions` works on after the three loaders
have run: `props1` is `properties1` (read with the comma-ok form), `props2`
`properties2`, `names2` `codePointNames2`, `gc1`/`gc2` the two
`DerivedGeneralCategory` maps, `nfk1`/`nfk2` the two NFK maps. -/
structure Env where
  props1 : Nat → Option String
  props2 : Nat → String
  names2 : Nat → String
  gc1 : Nat → String
  gc2 : Nat → String
  nfk1 : Nat → List String
  nfk2 : Nat → List String

/-! ### Sorting (models `sort.Ints`, `sort.Strings`, `sort.Slice`) -/

/-- Insert `x` into `l`, before the first element `y` with `r x y`. -/
def insertBy (r : α → α → Prop) [DecidableRel r] (x : α) : List α → List α
  | [] => [x]
  | y :: ys => if r x y then x :: y :: ys else y :: insertBy r x ys

/-- Insertion sort by the relation `r`. -/
def sortBy (r : α → α → Prop) [DecidableRel r] : List α → List α
  | [] => []
  | x :: xs => insertBy r x (sortBy r xs)

lemma insertBy_perm (r : α → α → Prop) [DecidableRel r] (x : α) (l : List α) :
    (insertBy r x l).Perm (x :: l) := by
  induction l with
  | nil => simp [insertBy]
  | cons y ys ih =>
      by_cases h : r x y
      · simp [insertBy, h]
      · simp only [insertBy, if_neg h]
        exact (ih.cons y).trans (List.Perm.swap x y ys)

lemma sortBy_perm (r : α → α → Prop) [DecidableRel r] (l : List α) :
    (sortBy r l).Perm l := by
  induction l with
  | nil => simp [sortBy]
  | cons x xs ih => exact (insertBy_perm r x (sortBy r xs)).trans (ih.cons x)

lemma mem_insertBy (r : α → α → Prop) [DecidableRel r] (x a : α) (l : List α) :
    a ∈ insertBy r x l ↔ a = x ∨ a ∈ l := by
  rw [(insertBy_perm r x l).mem_iff]
  simp

lemma pairwise_insertBy (r : α → α → Prop) [DecidableRel r]
    (htot : ∀ a b, ¬ r a b → r b a) (htr : ∀ a b c, r a b → r b c → r a c)
    (x : α) (l : List α) (hl : l.Pairwise r) :
    (insertBy r x l).Pairwise r := by
  induction l with
  | nil => simp [insertBy]
  | cons y ys ih =>
      rcases List.pairwise_cons.mp hl with ⟨hy, hys⟩
      by_cases h : r x y
      · simp only [insertBy, if_pos h]
        refine List.pairwise_cons.mpr ⟨?_, hl⟩
        intro a ha
        rcases List.mem_cons.mp ha with rfl | ha
        · exact h
        · exact htr x y a h (hy a ha)
      · simp only [insertBy, if_neg h]
        refine List.pairwise_cons.mpr ⟨?_, ih hys⟩
        intro a ha
        rcases (mem_insertBy r x a ys).mp ha with hax | ha
        · exact hax ▸ htot x y h
        · exact hy a ha

lemma sortBy_pairwise (r : α → α → Prop) [DecidableRel r]
    (htot : ∀ a b, ¬ r a b → r b a) (htr : ∀ a b c, r a b → r b c → r a c)
    (l : List α) : (sortBy r l).Pairwise r := by
  induction l with
  | nil => simp [sortBy]
  | cons x xs ih => exact pairwise_insertBy r htot htr x (sortBy r xs) ih

/-- Two lists that are permutations of one another and both sorted by `r`
agree, provided elements of equal rank (in the sense of `r` both ways) are
equal.  This is the extensional uniqueness of a sorted permutation; it is
what makes the choice of sorting algorithm for `sort.Slice` irrelevant for
the lists this program sorts. -/
lemma pairwise_perm_eq (r : α → α → Prop) :
    ∀ (l₁ l₂ : List α), l₁.Perm l₂ → l₁.Pairwise r → l₂.Pairwise r →
      (∀ x ∈ l₁, ∀ y ∈ l₁, r x y → r y x → x = y) → l₁ = l₂
  | [], l₂, hp, _, _, _ => (hp.symm.eq_nil).symm
  | a :: t₁, [], hp, _, _, _ => by simpa using hp.eq_nil
  | a :: t₁, b :: t₂, hp, h₁, h₂, hk => by
      rcases List.pairwise_cons.mp h₁ with ⟨ha, ht₁⟩
      rcases List.pairwise_cons.mp h₂ with ⟨hb, ht₂⟩
      have hab : a = b := by
        have hmem_a : a ∈ b :: t₂ := hp.mem_iff.mp (by simp)
        have hmem_b : b ∈ a :: t₁ := hp.symm.mem_iff.mp (by simp)
        rcases List.mem_cons.mp hmem_a with h | h
        · exact h
        rcases List.mem_cons.mp hmem_b with h' | h'
        · exact h'.symm
        · exact hk a (by simp) b (by simp [h']) (ha b h') (hb a h)
      subst hab
      have htp : t₁.Perm t₂ := hp.cons_inv
      have : t₁ = t₂ := by
        refine pairwise_perm_eq r t₁ t₂ htp ht₁ ht₂ ?_
        intro x hx y hy hxy hyx
        exact hk x (by simp [hx]) y (by simp [hy]) hxy hyx
      rw [this]

/-- `sort.Ints(codepoints)` on line 165. -/
def sortedCodepoints (keys : List Nat) : List Nat :=
  sortBy (· ≤ ·) keys

/-- The comparator of the `sort.Slice` call on line 393:
`appendix[i].Number < appendix[j].Number`, relaxed to the reflexive order the
sorted result satisfies. -/
def entryLe (a b : Entry) : Prop := a.Number ≤ b.Number

instance : DecidableRel entryLe := fun a b => Nat.decLe a.Number b.Number

/-! ### The grouped-change tally (`changeCounts`, lines 175 and 187-188) -/

/-- `changeCounts[changeKey]++` on a Go map, modelled on an association list
kept in first-insertion order: increment the first entry with the key, or
append `(k, 1)` if the key is absent. -/
def bump : List (String × Nat) → String → List (String × Nat)
  | [], k => [(k, 1)]
  | (k', c) :: rest, k =>
      if k' = k then (k', c + 1) :: rest else (k', c) :: bump rest k

/-- Reading the tally map: the count stored at key `k` (0 when absent). -/
def ccCount : List (String × Nat) → String → Nat
  | [], _ => 0
  | (k', c) :: rest, k => if k' = k then c else ccCount rest k

/-- The `totalCount` sum of lines 213-215. -/
def ccTotal (cc : List (String × Nat)) : Nat :=
  (cc.map (fun p => p.2)).sum

lemma ccCount_bump (cc : List (String × Nat)) (k k' : String) :
    ccCount (bump cc k) k' = ccCount cc k' + if k' = k then 1 else 0 := by
  induction cc with
  | nil =>
      by_cases h : k' = k
      · subst h; simp [bump, ccCount]
      · simp [bump, ccCount, h, Ne.symm h]
  | cons p rest ih =>
      obtain ⟨k'', c⟩ := p
      by_cases h1 : k'' = k
      · subst h1
        by_cases h2 : k' = k''
        · subst h2; simp [bump, ccCount]
        · simp [bump, ccCount, h2, Ne.symm h2]
      · by_cases h2 : k'' = k'
        · have hk : ¬ k' = k := by rw [← h2]; exact h1
          simp [bump, ccCount, h1, h2, hk]
        · simp [bump, ccCount, h1, h2, ih]

lemma ccTotal_bump (cc : List (String × Nat)) (k : String) :
    ccTotal (bump cc k) = ccTotal cc + 1 := by
  induction cc with
  | nil => simp [bump, ccTotal]
  | cons p rest ih =>
      obtain ⟨k', c⟩ := p
      by_cases h : k' = k
      · simp only [bump, if_pos h, ccTotal, List.map_cons, List.sum_cons]
        omega
      · simp only [bump, if_neg h, ccTotal, List.map_cons, List.sum_cons]
        simp only [ccTotal] at ih
        omega

/-! ### Fixed strings of the report (`Fprintf` format strings) -/

/-- Line 177. -/
def titleA : String := "\nAppendix A: Code points that changed derived property values\n\n"

/-- Line 193. -/
def headerA : String := "# Code point; Old; New; Name\n"

/-- Line 204 (the typo UNASSIGED is in the source). -/
def placeholderA : String := "# No change in derived property value except from UNASSIGED\n"

/-- Line 232. -/
def noChangesLine : String := "# No derived property changes detected.\n"

/-- Line 254. -/
def titleB : String := "\n\nAppendix B: Changes in General Category\n\n"

/-- Line 268 (the format string ends in two newlines). -/
def headerB : String := "# Code point; Old GC; New GC; Name\n\n"

/-- Line 281. -/
def placeholderB : String := "# No changes in General Category detected\n"

/-- Line 286. -/
def titleC : String := "\n\nAppendix C: New code points where General Category is Mn\n\n"

/-- Line 318. -/
def headerC : String := "# Code point; Name\n"

/-- Line 328. -/
def placeholderC : String := "# No new code points with General Category Mn\n"

/-- Line 334. -/
def titleD : String := "\n\nAppendix D: New code points with NFK normalization\n\n"

/-- Line 381. -/
def placeholderD : String := "# No new code points with length of NFK greater than one\n"

/-- Line 389. -/
def titleE : String := "\nAppendix E: Additions to Exceptions (F)\n\n"

/-- Line 407. -/
def placeholderE : String := "# No additional code points to become UNDER REVIEW\n"

/-- Line 410 (parameterised by the version label). -/
def titleF (version2 : String) : String :=
  "\nAppendix F: Derived property values Unicode " ++ version2 ++ "\n\n"

/-- The `"%s to %s"` change key of line 187. -/
def changeKey (e : Env) (cp : Nat) : String :=
  match e.props1 cp with
  | none => ""
  | some old => old ++ " to " ++ e.props2 cp

/-- The Appendix A entry line of line 195. -/
def aLine (e : Env) (cp : Nat) : String :=
  match e.props1 cp with
  | none => ""
  | some old =>
      "U+" ++ fmt04X cp ++ "; " ++ old ++ "; " ++ e.props2 cp ++ "; " ++
        e.names2 cp ++ "\n"

/-- The flag entry appended on lines 196, 321 and 374: all three categories
build the identical `Entry` for a given codepoint, so `Entry.Name` is a
function of `Entry.Number` throughout one run. -/
def mkFlag (e : Env) (cp : Nat) : Entry :=
  ⟨cp, "U+" ++ fmt04X cp ++ "; UNDER REVIEW # " ++ e.names2 cp⟩

/-- The Appendix B entry line of line 272. -/
def bLine (e : Env) (cp : Nat) : String :=
  "U+" ++ fmt04X cp ++ "; " ++ e.gc1 cp ++ "; " ++ e.gc2 cp ++ "; " ++
    e.names2 cp ++ "\n"

/-- The Appendix C entry line of line 320. -/
def cLine (e : Env) (cp : Nat) : String :=
  "U+" ++ fmt04X cp ++ "; " ++ e.names2 cp ++ "\n"

/-- The Appendix D entry line of line 373 (`newNFK` is the space-joined
token list of line 364). -/
def dLine (e : Env) (cp : Nat) : String :=
  "U+" ++ fmt04X cp ++ "; " ++ String.intercalate " " (e.nfk2 cp) ++ "; " ++
    e.names2 cp ++ "\n"

/-! ### The four per-category passes (lines 180-201, 257-279, 309-326,
357-379), each a fold over the sorted codepoint list -/

/-- `existedBefore && oldProperty != newProperty` (line 186). -/
def condChanged (e : Env) (cp : Nat) : Bool :=
  match e.props1 cp with
  | none => false
  | some old => decide (old ≠ e.props2 cp)

/-- The Appendix A condition (lines 186 and 190): existed before, derived
property changed, and the old value is not the UNASSIGNED sentinel. -/
def condA (e : Env) (cp : Nat) : Bool :=
  match e.props1 cp with
  | none => false
  | some old => decide (old ≠ e.props2 cp) && decide (old ≠ "UNASSIGNED")

/-- The Appendix B condition (lines 262 and 266). -/
def condB (e : Env) (cp : Nat) : Bool :=
  match e.props1 cp with
  | none => false
  | some old =>
      decide (e.gc1 cp ≠ e.gc2 cp) && decide (old ≠ "UNASSIGNED") &&
        decide (e.props2 cp ≠ "UNASSIGNED")

/-- The Appendix C condition (lines 313 and 316). -/
def condC (e : Env) (cp : Nat) : Bool :=
  decide (e.props2 cp ≠ "UNASSIGNED") && decide (e.gc2 cp = "Mn") &&
    decide (e.gc1 cp ≠ "Mn")

/-- The Appendix D condition (lines 362 and 371). -/
def condD (e : Env) (cp : Nat) : Bool :=
  match e.props1 cp with
  | none => false
  | some old =>
      decide (old = "UNASSIGNED") && decide (e.props2 cp = "PVALID") &&
        decide (1 < (e.nfk2 cp).length)

/-- Mutable state of the Appendix A loop: the tally map, the buffer chunk
written by this loop, the flag list and `numAppendixA`.  (`numAppendixE` is
recovered later as the total flag count, which it always equals.) -/
structure AState where
  cc : List (String × Nat)
  lines : List String
  flags : List Entry
  numA : Nat
deriving Repr

/-- One iteration of the Appendix A loop (lines 180-201). -/
def stepA (e : Env) (st : AState) (cp : Nat) : AState :=
  match e.props1 cp with
  | none => st
  | some old =>
      if old ≠ e.props2 cp then
        let st1 : AState := { st with cc := bump st.cc (old ++ " to " ++ e.props2 cp) }
        if old ≠ "UNASSIGNED" then
          { st1 with
            lines := st1.lines ++ (if st1.numA = 0 then [headerA] else []) ++ [aLine e cp],
            flags := st1.flags ++ [mkFlag e cp],
            numA := st1.numA + 1 }
        else st1
      else st

/-- The Appendix A loop. -/
def phaseA (e : Env) (cps : List Nat) : AState :=
  cps.foldl (stepA e) ⟨[], [], [], 0⟩

/-- State of the Appendix B loop: its buffer chunk and `numAppendixB`. -/
structure BState where
  lines : List String
  numB : Nat
deriving Repr

/-- One iteration of the Appendix B loop (lines 257-279); the flag append is
commented out in the source, so the state has no flag list. -/
def stepB (e : Env) (st : BState) (cp : Nat) : BState :=
  match e.props1 cp with
  | none => st
  | some old =>
      if e.gc1 cp ≠ e.gc2 cp ∧ old ≠ "UNASSIGNED" ∧ e.props2 cp ≠ "UNASSIGNED" then
        { lines := st.lines ++ (if st.numB = 0 then [headerB] else []) ++ [bLine e cp],
          numB := st.numB + 1 }
      else st

/-- The Appendix B loop. -/
def phaseB (e : Env) (cps : List Nat) : BState :=
  cps.foldl (stepB e) ⟨[], 0⟩

/-- State of the Appendix C loop. -/
structure CState where
  lines : List String
  flags : List Entry
  numC : Nat
deriving Repr

/-- One iteration of the Appendix C loop (lines 309-326). -/
def stepC (e : Env) (st : CState) (cp : Nat) : CState :=
  if e.props2 cp ≠ "UNASSIGNED" ∧ e.gc2 cp = "Mn" ∧ e.gc1 cp ≠ "Mn" then
    { lines := st.lines ++ (if st.numC = 0 then [headerC] else []) ++ [cLine e cp],
      flags := st.flags ++ [mkFlag e cp],
      numC := st.numC + 1 }
  else st

/-- The Appendix C loop. -/
def phaseC (e : Env) (cps : List Nat) : CState :=
  cps.foldl (stepC e) ⟨[], [], 0⟩

/-- State of the Appendix D loop. -/
structure DState where
  lines : List String
  flags : List Entry
  numD : Nat
deriving Repr

/-- One iteration of the Appendix D loop (lines 357-379).  The first inner
branch (changed normalization, lines 366-369) only prints to the console and
is not part of the report buffer. -/
def stepD (e : Env) (st : DState) (cp : Nat) : DState :=
  match e.props1 cp with
  | none => st
  | some old =>
      if old = "UNASSIGNED" ∧ e.props2 cp = "PVALID" ∧ 1 < (e.nfk2 cp).length then
        { lines := st.lines ++ [dLine e cp],
          flags := st.flags ++ [mkFlag e cp],
          numD := st.numD + 1 }
      else st

/-- The Appendix D loop. -/
def phaseD (e : Env) (cps : List Nat) : DState :=
  cps.foldl (stepD e) ⟨[], [], 0⟩

/-! ### Characterisation of the four passes -/

lemma phaseA_flags_aux (e : Env) :
    ∀ (cps : List Nat) (st : AState),
      (cps.foldl (stepA e) st).flags = st.flags ++ (cps.filter (condA e)).map (mkFlag e) := by
  intro cps
  induction cps with
  | nil => intro st; simp
  | cons cp cps ih =>
      intro st
      rw [List.foldl_cons, ih]
      rcases h : e.props1 cp with _ | old
      · simp [stepA, condA, h, List.filter_cons]
      · by_cases h1 : old = e.props2 cp
        · simp [stepA, condA, h, h1, List.filter_cons]
        · by_cases h2 : old = "UNASSIGNED"
          · rw [h2] at h1
            simp [stepA, condA, h, h1, h2, List.filter_cons]
          · simp [stepA, condA, h, h1, h2, List.filter_cons]

lemma phaseA_cc_aux (e : Env) :
    ∀ (cps : List Nat) (st : AState),
      (cps.foldl (stepA e) st).cc =
        (cps.filter (condChanged e)).foldl (fun cc cp => bump cc (changeKey e cp)) st.cc := by
  intro cps
  induction cps with
  | nil => intro st; simp
  | cons cp cps ih =>
      intro st
      rw [List.foldl_cons, ih]
      rcases h : e.props1 cp with _ | old
      · simp [stepA, condChanged, h, List.filter_cons]
      · by_cases h1 : old = e.props2 cp
        · simp [stepA, condChanged, h, h1, List.filter_cons]
        · by_cases h2 : old = "UNASSIGNED"
          · rw [h2] at h1
            simp [stepA, condChanged, changeKey, h, h1, h2, List.filter_cons]
          · simp [stepA, condChanged, changeKey, h, h1, h2, List.filter_cons]

lemma phaseA_numA_aux (e : Env) :
    ∀ (cps : List Nat) (st : AState),
      (cps.foldl (stepA e) st).numA = st.numA + (cps.filter (condA e)).length := by
  intro cps
  induction cps with
  | nil => intro st; simp
  | cons cp cps ih =>
      intro st
      rw [List.foldl_cons, ih]
      rcases h : e.props1 cp with _ | old
      · simp [stepA, condA, h, List.filter_cons]
      · by_cases h1 : old = e.props2 cp
        · simp [stepA, condA, h, h1, List.filter_cons]
        · by_cases h2 : old = "UNASSIGNED"
          · rw [h2] at h1
            simp [stepA, condA, h, h1, h2, List.filter_cons]
          · simp [stepA, condA, h, h1, h2, List.filter_cons]
            omega

lemma phaseA_lines_aux (e : Env) :
    ∀ (cps : List Nat) (st : AState),
      (cps.foldl (stepA e) st).lines = st.lines ++
        (if st.numA = 0 ∧ cps.filter (condA e) ≠ [] then [headerA] else []) ++
        (cps.filter (condA e)).map (aLine e) := by
  intro cps
  induction cps with
  | nil => intro st; simp
  | cons cp cps ih =>
      intro st
      rw [List.foldl_cons, ih]
      rcases h : e.props1 cp with _ | old
      · simp [stepA, condA, h, List.filter_cons]
      · by_cases h1 : old = e.props2 cp
        · simp [stepA, condA, h, h1, List.filter_cons]
        · by_cases h2 : old = "UNASSIGNED"
          · rw [h2] at h1
            simp [stepA, condA, h, h1, h2, List.filter_cons]
          · by_cases hn : st.numA = 0 <;>
              simp [stepA, condA, h, h1, h2, hn, List.filter_cons]

lemma phaseA_flags (e : Env) (cps : List Nat) :
    (phaseA e cps).flags = (cps.filter (condA e)).map (mkFlag e) := by
  simp [phaseA, phaseA_flags_aux]

lemma phaseA_cc (e : Env) (cps : List Nat) :
    (phaseA e cps).cc =
      (cps.filter (condChanged e)).foldl (fun cc cp => bump cc (changeKey e cp)) [] := by
  simp [phaseA, phaseA_cc_aux]

lemma phaseA_numA (e : Env) (cps : List Nat) :
    (phaseA e cps).numA = (cps.filter (condA e)).length := by
  simp [phaseA, phaseA_numA_aux]

lemma phaseA_lines (e : Env) (cps : List Nat) :
    (phaseA e cps).lines =
      if cps.filter (condA e) = [] then []
      else headerA :: (cps.filter (condA e)).map (aLine e) := by
  rw [phaseA, phaseA_lines_aux]
  by_cases h : cps.filter (condA e) = [] <;> simp [h]

lemma foldl_bump_ccCount (e : Env) :
    ∀ (l : List Nat) (cc : List (String × Nat)) (k : String),
      ccCount (l.foldl (fun cc cp => bump cc (changeKey e cp)) cc) k =
        ccCount cc k + (l.map (changeKey e)).count k := by
  intro l
  induction l with
  | nil => intro cc k; simp
  | cons cp l ih =>
      intro cc k
      rw [List.foldl_cons, ih, ccCount_bump]
      rw [List.map_cons, List.count_cons]
      by_cases h : changeKey e cp = k
      · simp [h]
        omega
      · simp [h, Ne.symm h]

lemma foldl_bump_ccTotal (e : Env) :
    ∀ (l : List Nat) (cc : List (String × Nat)),
      ccTotal (l.foldl (fun cc cp => bump cc (changeKey e cp)) cc) =
        ccTotal cc + l.length := by
  intro l
  induction l with
  | nil => intro cc; simp
  | cons cp l ih =>
      intro cc
      rw [List.foldl_cons, ih, ccTotal_bump]
      simp; omega

lemma phaseB_aux (e : Env) :
    ∀ (cps : List Nat) (st : BState),
      cps.foldl (stepB e) st =
        ⟨st.lines ++
          (if st.numB = 0 ∧ cps.filter (condB e) ≠ [] then [headerB] else []) ++
          (cps.filter (condB e)).map (bLine e),
         st.numB + (cps.filter (condB e)).length⟩ := by
  intro cps
  induction cps with
  | nil => intro st; simp
  | cons cp cps ih =>
      intro st
      rw [List.foldl_cons, ih]
      rcases h : e.props1 cp with _ | old
      · simp [stepB, condB, h, List.filter_cons]
      · by_cases h1 : e.gc1 cp = e.gc2 cp
        · simp [stepB, condB, h, h1, List.filter_cons]
        · by_cases h2 : old = "UNASSIGNED"
          · simp [stepB, condB, h, h1, h2, List.filter_cons]
          · by_cases h3 : e.props2 cp = "UNASSIGNED"
            · simp [stepB, condB, h, h1, h2, h3, List.filter_cons]
            · by_cases hn : st.numB = 0 <;>
                simp [stepB, condB, h, h1, h2, h3, hn, List.filter_cons] <;> omega

lemma phaseB_lines (e : Env) (cps : List Nat) :
    (phaseB e cps).lines =
      if cps.filter (condB e) = [] then []
      else headerB :: (cps.filter (condB e)).map (bLine e) := by
  rw [phaseB, phaseB_aux]
  by_cases h : cps.filter (condB e) = [] <;> simp [h]

lemma phaseB_numB (e : Env) (cps : List Nat) :
    (phaseB e cps).numB = (cps.filter (condB e)).length := by
  simp [phaseB, phaseB_aux]

lemma phaseC_aux (e : Env) :
    ∀ (cps : List Nat) (st : CState),
      cps.foldl (stepC e) st =
        ⟨st.lines ++
          (if st.numC = 0 ∧ cps.filter (condC e) ≠ [] then [headerC] else []) ++
          (cps.filter (condC e)).map (cLine e),
         st.flags ++ (cps.filter (condC e)).map (mkFlag e),
         st.numC + (cps.filter (condC e)).length⟩ := by
  intro cps
  induction cps with
  | nil => intro st; simp
  | cons cp cps ih =>
      intro st
      rw [List.foldl_cons, ih]
      by_cases h1 : e.props2 cp = "UNASSIGNED"
      · simp [stepC, condC, h1, List.filter_cons]
      · by_cases h2 : e.gc2 cp = "Mn"
        · by_cases h3 : e.gc1 cp = "Mn"
          · simp [stepC, condC, h1, h2, h3, List.filter_cons]
          · by_cases hn : st.numC = 0 <;>
              simp [stepC, condC, h1, h2, h3, hn, List.filter_cons] <;> omega
        · simp [stepC, condC, h1, h2, List.filter_cons]

lemma phaseC_lines (e : Env) (cps : List Nat) :
    (phaseC e cps).lines =
      if cps.filter (condC e) = [] then []
      else headerC :: (cps.filter (condC e)).map (cLine e) := by
  rw [phaseC, phaseC_aux]
  by_cases h : cps.filter (condC e) = [] <;> simp [h]

lemma phaseC_flags (e : Env) (cps : List Nat) :
    (phaseC e cps).flags = (cps.filter (condC e)).map (mkFlag e) := by
  simp [phaseC, phaseC_aux]

lemma phaseC_numC (e : Env) (cps : List Nat) :
    (phaseC e cps).numC = (cps.filter (condC e)).length := by
  simp [phaseC, phaseC_aux]

lemma phaseD_aux (e : Env) :
    ∀ (cps : List Nat) (st : DState),
      cps.foldl (stepD e) st =
        ⟨st.lines ++ (cps.filter (condD e)).map (dLine e),
         st.flags ++ (cps.filter (condD e)).map (mkFlag e),
         st.numD + (cps.filter (condD e)).length⟩ := by
  intro cps
  induction cps with
  | nil => intro st; simp
  | cons cp cps ih =>
      intro st
      rw [List.foldl_cons, ih]
      rcases h : e.props1 cp with _ | old
      · simp [stepD, condD, h, List.filter_cons]
      · by_cases h1 : old = "UNASSIGNED"
        · by_cases h2 : e.props2 cp = "PVALID"
          · by_cases h3 : 1 < (e.nfk2 cp).length
            · simp [stepD, condD, h, h1, h2, h3, List.filter_cons]
              omega
            · simp [stepD, condD, h, h1, h2, h3, List.filter_cons]
          · simp [stepD, condD, h, h1, h2, List.filter_cons]
        · simp [stepD, condD, h, h1, List.filter_cons]

lemma phaseD_lines (e : Env) (cps : List Nat) :
    (phaseD e cps).lines = (cps.filter (condD e)).map (dLine e) := by
  simp [phaseD, phaseD_aux]

lemma phaseD_flags (e : Env) (cps : List Nat) :
    (phaseD e cps).flags = (cps.filter (condD e)).map (mkFlag e) := by
  simp [phaseD, phaseD_aux]

lemma phaseD_numD (e : Env) (cps : List Nat) :
    (phaseD e cps).numD = (cps.filter (condD e)).length := by
  simp [phaseD, phaseD_aux]

/-! ### Appendix E: the override applier (lines 389-408) -/

/-- The full flag list in discovery order: the Appendix A pass appends first,
then the Appendix C pass, then the Appendix D pass (the Appendix B pass never
appends - its append is commented out in the source, lines 273-274). -/
def appendixList (e : Env) (cps : List Nat) : List Entry :=
  (phaseA e cps).flags ++ (phaseC e cps).flags ++ (phaseD e cps).flags

/-- The `sort.Slice` call of line 393 (see the header comment: on the lists
this program sorts, every comparator-sorted permutation equals this). -/
def sortedAppendix (e : Env) (cps : List Nat) : List Entry :=
  sortBy entryLe (appendixList e cps)

/-- The assignments `properties2[codepoint] = "UNDER REVIEW"` of line 401,
performed once per flag entry in sorted order.  In Go this mutates the
`properties2` map itself (no copy is made); in the embedding the mutated
map is this function's result, threaded on to the Appendix F loop. -/
def applyOverrides (p : Nat → String) : List Entry → (Nat → String)
  | [] => p
  | en :: rest =>
      applyOverrides (fun n => if n = en.Number then "UNDER REVIEW" else p n) rest

/-- The contents of `properties2` after the Appendix E loop has run: the
effective classification table that Appendix F compacts. -/
def effectiveProps (e : Env) (cps : List Nat) : Nat → String :=
  applyOverrides e.props2 (sortedAppendix e cps)

/-- The Appendix E buffer line of line 399. -/
def eLine (en : Entry) : String := en.Name ++ "\n"

lemma applyOverrides_eq (p : Nat → String) :
    ∀ (l : List Entry) (n : Nat),
      applyOverrides p l n =
        if n ∈ l.map Entry.Number then "UNDER REVIEW" else p n := by
  intro l
  induction l generalizing p with
  | nil => intro n; simp [applyOverrides]
  | cons en rest ih =>
      intro n
      rw [applyOverrides, ih]
      by_cases h1 : n ∈ rest.map Entry.Number
      · simp [h1]
      · by_cases h2 : n = en.Number <;> simp [h1, h2]

/-! ### Appendix F: the range compactor (lines 410-446) -/

/-- The loop variables of the Appendix F loop: `first`, `start`, `end`
(`stop` here - `end` is a Lean keyword), `currentProperty`, plus the ranges
already flushed to the buffer. -/
structure RunSt where
  first : Bool
  start : Nat
  stop : Nat
  cur : String
  out : List (Nat × Nat × String)
deriving Repr

/-- One iteration of the Appendix F loop (lines 417-439). -/
def stepF (p : Nat → String) (st : RunSt) (cp : Nat) : RunSt :=
  if st.first then ⟨false, cp, cp, p cp, st.out⟩
  else if p cp = st.cur then { st with stop := cp }
  else ⟨false, cp, cp, p cp, st.out ++ [(st.start, st.stop, st.cur)]⟩

/-- The Appendix F loop plus the unconditional final flush of lines 442-446.
On the empty codepoint list this emits the Go zero values `(0, 0, "")`, just
as the source does. -/
def compactRanges (p : Nat → String) (cps : List Nat) : List (Nat × Nat × String) :=
  let st := cps.foldl (stepF p) ⟨true, 0, 0, "", []⟩
  st.out ++ [(st.start, st.stop, st.cur)]

/-- Rendering of one flushed range (lines 430-434 and 442-446). -/
def rangeLine (r : Nat × Nat × String) : String :=
  if r.1 = r.2.1 then "U+" ++ fmt04X r.1 ++ "; " ++ r.2.2 ++ "\n"
  else "U+" ++ fmt04X r.1 ++ "..U+" ++ fmt04X r.2.1 ++ "; " ++ r.2.2 ++ "\n"

/-! ### The grouped-change summary (lines 208-233) and report assembly -/

/-- `theWord` of lines 216-219 and 226-229. -/
def plural (n : Nat) : String := if n = 1 then "point" else "points"

/-- One collected summary line (line 220) with the newline `Fprintln`
appends (line 224). -/
def changeLine (p : String × Nat) : String :=
  "# " ++ Nat.repr p.2 ++ " code " ++ plural p.2 ++ " changed from " ++ p.1 ++ "\n"

/-- The grand-total line of line 230. -/
def totalLine (n : Nat) : String :=
  "# " ++ Nat.repr n ++ " code " ++ plural n ++ " changed in total\n"

/-- Lines 210-233: render each tally entry, sort the rendered strings
(`sort.Strings`, line 222), append the total; `tally` is the `changeCounts`
map linearised in whatever order `range` yields it. -/
def summarySeg (tally : List (String × Nat)) : List String :=
  if tally = [] then [noChangesLine]
  else sortBy (· ≤ ·) (tally.map changeLine) ++ [totalLine (ccTotal tally)]

/-- The report buffer, parameterised over the `range changeCounts` iteration
order (a permutation of the canonical tally).  Every other part of the
buffer is already deterministic once the codepoint list is sorted. -/
def reportWithTally (e : Env) (version2 : String) (keys : List Nat)
    (tally : List (String × Nat)) : List String :=
  let cps := sortedCodepoints keys
  let a := phaseA e cps
  let b := phaseB e cps
  let c := phaseC e cps
  let d := phaseD e cps
  let flags := a.flags ++ c.flags ++ d.flags
  let sortedFlags := sortBy entryLe flags
  let eff := applyOverrides e.props2 sortedFlags
  let ranges := compactRanges eff cps
  [titleA] ++ a.lines ++ (if a.numA = 0 then [placeholderA] else []) ++
    summarySeg tally ++
    [titleB] ++ b.lines ++ (if b.numB = 0 then [placeholderB] else []) ++
    [titleC] ++ c.lines ++ (if c.numC = 0 then [placeholderC] else []) ++
    [titleD] ++ d.lines ++ (if d.numD = 0 then [placeholderD] else []) ++
    [titleE] ++ sortedFlags.map eLine ++
    (if flags.length = 0 then [placeholderE] else []) ++
    [titleF version2] ++ ranges.map rangeLine

/-- The report buffer printed by line 448, with the canonical tally order. -/
def report (e : Env) (version2 : String) (keys : List Nat) : List String :=
  reportWithTally e version2 keys (phaseA e (sortedCodepoints keys)).cc

/-! ### The whole of `compareVersions` including the fallible reads -/

/-- What `readCodepointProperties` returns for the second version:
`properties2`, `codePointNames2` and the key set of `properties2`. -/
structure Base2 where
  props : Nat → String
  names : Nat → String
  keys : List Nat

/-- The six external datasets `compareVersions` reads, each of which can
fail (`err != nil`): `allcodepoints.txt` for both versions (lines 141-154),
`DerivedGeneralCategory.txt` for both versions (lines 239-249), `nfk.txt`
for both versions (lines 339-353). -/
structure Sources where
  base1 : Option (Nat → Option String)
  base2 : Option Base2
  gcSrc1 : Option (Nat → String)
  gcSrc2 : Option (Nat → String)
  nfkSrc1 : Option (Nat → List String)
  nfkSrc2 : Option (Nat → List String)

/-- `compareVersions` as a function of its readable inputs: each failed read
returns before `fmt.Print(buffer.String())` on line 448 is reached, so the
report text is printed only when every read succeeded, and then it is the
whole buffer. -/
def compareVersionsRun (s : Sources) (version2 : String) : Option (List String) :=
  match s.base1 with
  | none => none
  | some p1 =>
    match s.base2 with
    | none => none
    | some b2 =>
      match s.gcSrc1 with
      | none => none
      | some g1 =>
        match s.gcSrc2 with
        | none => none
        | some g2 =>
          match s.nfkSrc1 with
          | none => none
          | some f1 =>
            match s.nfkSrc2 with
            | none => none
            | some f2 =>
              some (report ⟨p1, b2.props, b2.names, g1, g2, f1, f2⟩ version2 b2.keys)

/-! ### Invariants of the range compactor -/

/-- Membership of a codepoint in an emitted range (inclusive bounds). -/
def inRange (cp : Nat) (r : Nat × Nat × String) : Prop :=
  r.1 ≤ cp ∧ cp ≤ r.2.1

instance (cp : Nat) (r : Nat × Nat × String) : Decidable (inRange cp r) :=
  inferInstanceAs (Decidable (r.1 ≤ cp ∧ cp ≤ r.2.1))

/-- Adjacent emitted ranges carry different values. -/
def valNe (a b : Nat × Nat × String) : Prop := a.2.2 ≠ b.2.2

/-- The ranges the loop would emit if it flushed right now: the flushed ones
plus the current run. -/
def virtualOut (st : RunSt) : List (Nat × Nat × String) :=
  st.out ++ [(st.start, st.stop, st.cur)]

lemma compactRanges_def (p : Nat → String) (cps : List Nat) :
    compactRanges p cps = virtualOut (cps.foldl (stepF p) ⟨true, 0, 0, "", []⟩) := rfl

lemma chain'_valNe_congr (l : List (Nat × Nat × String)) (a b : Nat × Nat × String)
    (hab : a.2.2 = b.2.2) (h : (l ++ [a]).Chain' valNe) : (l ++ [b]).Chain' valNe := by
  rw [List.chain'_append] at h ⊢
  obtain ⟨h1, _, h3⟩ := h
  refine ⟨h1, List.chain'_singleton b, ?_⟩
  intro x hx y hy
  have hy' : y = b := by
    have := (by simpa using hy : b = y)
    exact this.symm
  subst hy'
  have := h3 x hx a (by simp)
  simpa [valNe, ← hab] using this

/-- Loop invariant of the Appendix F loop, after the `seen` prefix of the
sorted codepoint list has been consumed (always nonempty: the invariant is
established by the first iteration). -/
structure CompactInv (p : Nat → String) (seen : List Nat) (st : RunSt) : Prop where
  notFirst : st.first = false
  chain : (virtualOut st).Chain' valNe
  homog : ∀ r ∈ virtualOut st, ∀ x ∈ seen, inRange x r → p x = r.2.2
  uniq : ∀ x ∈ seen, (virtualOut st).countP (fun r => decide (inRange x r)) = 1
  endsLe : ∀ r ∈ virtualOut st, r.2.1 ≤ st.stop
  seenLe : ∀ x ∈ seen, x ≤ st.stop
  startLe : st.start ≤ st.stop
  stopMem : st.stop ∈ seen

lemma compactInv_step (p : Nat → String) (seen : List Nat) (st : RunSt) (cp : Nat)
    (hinv : CompactInv p seen st) (hgt : ∀ x ∈ seen, x < cp) :
    CompactInv p (seen ++ [cp]) (stepF p st cp) := by
  obtain ⟨hF, hchain, hhom, huni, hend, hsle, hstart, hsm⟩ := hinv
  have hstop : st.stop < cp := hgt st.stop hsm
  have hF' : ¬ (st.first = true) := by simp [hF]
  rw [stepF, if_neg hF']
  by_cases hv : p cp = st.cur
  · rw [if_pos hv]
    refine ⟨hF, ?_, ?_, ?_, ?_, ?_, ?_, ?_⟩
    · show (st.out ++ [(st.start, cp, st.cur)]).Chain' valNe
      exact chain'_valNe_congr st.out (st.start, st.stop, st.cur)
        (st.start, cp, st.cur) rfl hchain
    · show ∀ r ∈ st.out ++ [(st.start, cp, st.cur)], ∀ x ∈ seen ++ [cp],
        inRange x r → p x = r.2.2
      intro r hr x hx hxr
      have hxr' : r.1 ≤ x ∧ x ≤ r.2.1 := hxr
      rcases List.mem_append.mp hr with hr | hr
      · rcases List.mem_append.mp hx with hx | hx
        · exact hhom r (List.mem_append_left _ hr) x hx hxr
        · have hx' : x = cp := by simpa using hx
          subst x
          have h2 := hend r (List.mem_append_left _ hr)
          exact absurd hxr'.2 (by omega)
      · have hr' : r = (st.start, cp, st.cur) := by simpa using hr
        subst hr'
        rcases List.mem_append.mp hx with hx | hx
        · have hx2 : x ≤ st.stop := hsle x hx
          have := hhom (st.start, st.stop, st.cur)
            (List.mem_append_right _ (by simp)) x hx ⟨hxr'.1, hx2⟩
          simpa using this
        · have hx' : x = cp := by simpa using hx
          subst x
          simpa using hv
    · show ∀ x ∈ seen ++ [cp],
        (st.out ++ [(st.start, cp, st.cur)]).countP (fun r => decide (inRange x r)) = 1
      intro x hx
      rcases List.mem_append.mp hx with hx | hx
      · have h1 := huni x hx
        rw [virtualOut, List.countP_append] at h1
        rw [List.countP_append]
        have hxs : x ≤ st.stop := hsle x hx
        have hsame :
            List.countP (fun r => decide (inRange x r)) [(st.start, cp, st.cur)] =
            List.countP (fun r => decide (inRange x r)) [(st.start, st.stop, st.cur)] := by
          simp only [List.countP_cons, List.countP_nil, decide_eq_true_eq]
          by_cases hs1 : st.start ≤ x
          · have hc1 : inRange x (st.start, cp, st.cur) := ⟨hs1, by show x ≤ cp; omega⟩
            have hc2 : inRange x (st.start, st.stop, st.cur) := ⟨hs1, hxs⟩
            rw [if_pos hc1, if_pos hc2]
          · rw [if_neg ?_, if_neg ?_]
            · rintro ⟨h3, -⟩; exact hs1 h3
            · rintro ⟨h3, -⟩; exact hs1 h3
        rw [hsame]
        exact h1
      · have hx' : x = cp := by simpa using hx
        subst x
        rw [List.countP_append]
        have h0 : List.countP (fun r => decide (inRange cp r)) st.out = 0 := by
          rw [List.countP_eq_zero]
          intro r hr
          have h2 := hend r (List.mem_append_left _ hr)
          simp only [decide_eq_true_eq]
          rintro ⟨-, h3⟩
          omega
        rw [h0]
        have hsc : st.start ≤ cp := by omega
        simp [List.countP_cons, inRange, hsc]
    · show ∀ r ∈ st.out ++ [(st.start, cp, st.cur)], r.2.1 ≤ cp
      intro r hr
      rcases List.mem_append.mp hr with hr | hr
      · have := hend r (List.mem_append_left _ hr); omega
      · have hr' : r = (st.start, cp, st.cur) := by simpa using hr
        subst hr'
        exact Nat.le_refl cp
    · show ∀ x ∈ seen ++ [cp], x ≤ cp
      intro x hx
      rcases List.mem_append.mp hx with hx | hx
      · have := hsle x hx; omega
      · have hx' : x = cp := by simpa using hx
        omega
    · show st.start ≤ cp
      omega
    · show cp ∈ seen ++ [cp]
      simp
  · rw [if_neg hv]
    refine ⟨rfl, ?_, ?_, ?_, ?_, ?_, ?_, ?_⟩
    · show ((st.out ++ [(st.start, st.stop, st.cur)]) ++ [(cp, cp, p cp)]).Chain' valNe
      rw [List.chain'_append]
      refine ⟨hchain, List.chain'_singleton _, ?_⟩
      intro x hx y hy
      have hy' : y = (cp, cp, p cp) := by
        have := (by simpa using hy : (cp, cp, p cp) = y)
        exact this.symm
      have hx' : x = (st.start, st.stop, st.cur) := by
        have := (by simpa using hx : (st.start, st.stop, st.cur) = x)
        exact this.symm
      subst hy'
      subst x
      exact fun he => hv he.symm
    · show ∀ r ∈ (st.out ++ [(st.start, st.stop, st.cur)]) ++ [(cp, cp, p cp)],
        ∀ x ∈ seen ++ [cp], inRange x r → p x = r.2.2
      intro r hr x hx hxr
      have hxr' : r.1 ≤ x ∧ x ≤ r.2.1 := hxr
      rcases List.mem_append.mp hr with hr | hr
      · rcases List.mem_append.mp hx with hx | hx
        · exact hhom r hr x hx hxr
        · have hx' : x = cp := by simpa using hx
          subst x
          have h2 := hend r hr
          exact absurd hxr'.2 (by omega)
      · have hr' : r = (cp, cp, p cp) := by simpa using hr
        subst hr'
        rcases List.mem_append.mp hx with hx | hx
        · have h1 := hsle x hx
          exact absurd hxr'.1 (by omega)
        · have hx' : x = cp := by simpa using hx
          subst x
          rfl
    · show ∀ x ∈ seen ++ [cp],
        ((st.out ++ [(st.start, st.stop, st.cur)]) ++ [(cp, cp, p cp)]).countP
          (fun r => decide (inRange x r)) = 1
      intro x hx
      rw [List.countP_append]
      rcases List.mem_append.mp hx with hx | hx
      · have h1 := huni x hx
        rw [virtualOut] at h1
        have h2 := hsle x hx
        have h0 : List.countP (fun r => decide (inRange x r)) [(cp, cp, p cp)] = 0 := by
          simp only [List.countP_cons, List.countP_nil, decide_eq_true_eq]
          rw [if_neg]
          rintro ⟨h3, -⟩
          omega
        omega
      · have hx' : x = cp := by simpa using hx
        subst x
        have h0 : List.countP (fun r => decide (inRange cp r))
            (st.out ++ [(st.start, st.stop, st.cur)]) = 0 := by
          rw [List.countP_eq_zero]
          intro r hr
          have h2 := hend r hr
          simp only [decide_eq_true_eq]
          rintro ⟨-, h3⟩
          omega
        rw [h0]
        simp [List.countP_cons, inRange]
    · show ∀ r ∈ (st.out ++ [(st.start, st.stop, st.cur)]) ++ [(cp, cp, p cp)], r.2.1 ≤ cp
      intro r hr
      rcases List.mem_append.mp hr with hr | hr
      · have := hend r hr; omega
      · have hr' : r = (cp, cp, p cp) := by simpa using hr
        subst hr'
        exact Nat.le_refl cp
    · show ∀ x ∈ seen ++ [cp], x ≤ cp
      intro x hx
      rcases List.mem_append.mp hx with hx | hx
      · have := hsle x hx; omega
      · have hx' : x = cp := by simpa using hx
        omega
    · show cp ≤ cp
      exact Nat.le_refl cp
    · show cp ∈ seen ++ [cp]
      simp

lemma compactInv_fold (p : Nat → String) (rest : List Nat) :
    ∀ (seen : List Nat) (st : RunSt),
      CompactInv p seen st → rest.Pairwise (· < ·) →
      (∀ x ∈ seen, ∀ y ∈ rest, x < y) →
      CompactInv p (seen ++ rest) (rest.foldl (stepF p) st) := by
  induction rest with
  | nil =>
      intro seen st hinv _ _
      simpa using hinv
  | cons y ys ih =>
      intro seen st hinv hp hcross
      rw [List.foldl_cons]
      have h1 : CompactInv p (seen ++ [y]) (stepF p st y) :=
        compactInv_step p seen st y hinv (fun x hx => hcross x hx y (by simp))
      have hcross2 : ∀ x ∈ seen ++ [y], ∀ z ∈ ys, x < z := by
        intro x hx z hz
        rcases List.mem_append.mp hx with hx | hx
        · exact hcross x hx z (by simp [hz])
        · have hx' : x = y := by simpa using hx
          subst x
          exact (List.pairwise_cons.mp hp).1 z hz
      have h2 := ih (seen ++ [y]) (stepF p st y) h1 (List.pairwise_cons.mp hp).2 hcross2
      simpa [List.append_assoc] using h2

lemma compactRanges_inv (p : Nat → String) (c : Nat) (cs : List Nat)
    (hs : (c :: cs).Pairwise (· < ·)) :
    CompactInv p (c :: cs) ((c :: cs).foldl (stepF p) ⟨true, 0, 0, "", []⟩) := by
  rw [List.foldl_cons]
  have hst : stepF p ⟨true, 0, 0, "", []⟩ c = ⟨false, c, c, p c, []⟩ := by
    simp [stepF]
  rw [hst]
  have hbase : CompactInv p [c] ⟨false, c, c, p c, []⟩ := by
    refine ⟨rfl, ?_, ?_, ?_, ?_, ?_, ?_, ?_⟩
    · show ([] ++ [(c, c, p c)]).Chain' valNe
      simp
    · show ∀ r ∈ [] ++ [(c, c, p c)], ∀ x ∈ [c], inRange x r → p x = r.2.2
      intro r hr x hx _
      have hr' : r = (c, c, p c) := by simpa using hr
      have hx' : x = c := by simpa using hx
      subst hr'
      subst x
      rfl
    · show ∀ x ∈ [c], ([] ++ [(c, c, p c)]).countP (fun r => decide (inRange x r)) = 1
      intro x hx
      have hx' : x = c := by simpa using hx
      subst x
      simp [List.countP_cons, inRange]
    · show ∀ r ∈ [] ++ [(c, c, p c)], r.2.1 ≤ c
      intro r hr
      have hr' : r = (c, c, p c) := by simpa using hr
      subst hr'
      exact Nat.le_refl c
    · show ∀ x ∈ [c], x ≤ c
      intro x hx
      have hx' : x = c := by simpa using hx
      omega
    · exact Nat.le_refl c
    · simp
  have hcross : ∀ x ∈ [c], ∀ y ∈ cs, x < y := by
    intro x hx y hy
    have hx' : x = c := by simpa using hx
    subst x
    exact (List.pairwise_cons.mp hs).1 y hy
  have h2 := compactInv_fold p cs [c] ⟨false, c, c, p c, []⟩ hbase
    (List.pairwise_cons.mp hs).2 hcross
  simpa using h2

/-- Maximality of the compacted output: consecutive emitted ranges never
share a value (on a strictly ascending codepoint list). -/
lemma compactRanges_chain (p : Nat → String) (cps : List Nat)
    (hs : cps.Pairwise (· < ·)) : (compactRanges p cps).Chain' valNe := by
  cases cps with
  | nil => simp [compactRanges]
  | cons c cs =>
      have h := compactRanges_inv p c cs hs
      rw [compactRanges_def]
      exact h.chain

/-- Homogeneity: every codepoint of the input list that falls inside an
emitted range has that range's value. -/
lemma compactRanges_homog (p : Nat → String) (cps : List Nat)
    (hs : cps.Pairwise (· < ·)) :
    ∀ r ∈ compactRanges p cps, ∀ x ∈ cps, inRange x r → p x = r.2.2 := by
  cases cps with
  | nil => intro r _ x hx; simp at hx
  | cons c cs =>
      have h := compactRanges_inv p c cs hs
      rw [compactRanges_def]
      exact h.homog

/-- Partition: every codepoint of the input list lies in exactly one emitted
range. -/
lemma compactRanges_uniq (p : Nat → String) (cps : List Nat)
    (hs : cps.Pairwise (· < ·)) :
    ∀ x ∈ cps, (compactRanges p cps).countP (fun r => decide (inRange x r)) = 1 := by
  cases cps with
  | nil => intro x hx; simp at hx
  | cons c cs =>
      have h := compactRanges_inv p c cs hs
      rw [compactRanges_def]
      exact h.uniq

/-! ### Facts about the sorted codepoint list and the flag list -/

lemma sortedCodepoints_perm (keys : List Nat) : (sortedCodepoints keys).Perm keys :=
  sortBy_perm _ keys

lemma sortedCodepoints_pairwise (keys : List Nat) :
    (sortedCodepoints keys).Pairwise (· ≤ ·) := by
  rw [sortedCodepoints]
  exact sortBy_pairwise (· ≤ · : Nat → Nat → Prop) (fun a b h => le_of_not_le h)
    (fun a b c hab hbc => le_trans hab hbc) keys

lemma sortedCodepoints_lt_of_nodup (keys : List Nat) (h : keys.Nodup) :
    (sortedCodepoints keys).Pairwise (· < ·) := by
  have h1 := sortedCodepoints_pairwise keys
  have h2 : (sortedCodepoints keys).Nodup :=
    ((sortedCodepoints_perm keys).nodup_iff).mpr h
  exact (List.Pairwise.and h1 h2).imp (fun hab => lt_of_le_of_ne hab.1 hab.2)

/-- Every entry in the flag list is the canonical flag of its own codepoint:
categories A, C and D all build `Entry{cp, "U+%04X; UNDER REVIEW # name"}`
(lines 196, 321, 374), so `Name` is a function of `Number`. -/
lemma appendixList_shape (e : Env) (cps : List Nat) :
    ∀ x ∈ appendixList e cps, x = mkFlag e x.Number := by
  intro x hx
  rw [appendixList, phaseA_flags, phaseC_flags, phaseD_flags] at hx
  rcases List.mem_append.mp hx with hx | hx
  · rcases List.mem_append.mp hx with hx | hx
    · obtain ⟨cp, _, rfl⟩ := List.mem_map.mp hx
      rfl
    · obtain ⟨cp, _, rfl⟩ := List.mem_map.mp hx
      rfl
  · obtain ⟨cp, _, rfl⟩ := List.mem_map.mp hx
    rfl

lemma sortedAppendix_pairwise (e : Env) (cps : List Nat) :
    (sortedAppendix e cps).Pairwise entryLe :=
  sortBy_pairwise entryLe (fun a b h => Nat.le_of_not_le h)
    (fun a b c hab hbc => Nat.le_trans hab hbc) _

/-- The rendered grouped-change summary only depends on the tally map, not on
the order `range` happens to walk it. -/
lemma summarySeg_perm (t1 t2 : List (String × Nat)) (h : t1.Perm t2) :
    summarySeg t1 = summarySeg t2 := by
  by_cases h1 : t1 = []
  · subst h1
    have h2 : t2 = [] := h.symm.eq_nil
    rw [h2]
  · have h2 : t2 ≠ [] := fun he => h1 ((he ▸ h).eq_nil)
    rw [summarySeg, summarySeg, if_neg h1, if_neg h2]
    have hsort : sortBy (· ≤ ·) (t1.map changeLine) = sortBy (· ≤ ·) (t2.map changeLine) := by
      refine pairwise_perm_eq (· ≤ · : String → String → Prop) _ _
        ((sortBy_perm _ _).trans ((h.map changeLine).trans (sortBy_perm _ _).symm))
        (sortBy_pairwise (· ≤ · : String → String → Prop) (fun a b hab => le_of_not_le hab)
          (fun a b c hab hbc => le_trans hab hbc) _)
        (sortBy_pairwise (· ≤ · : String → String → Prop) (fun a b hab => le_of_not_le hab)
          (fun a b c hab hbc => le_trans hab hbc) _)
        ?_
      intro x _ y _ hxy hyx
      exact le_antisymm hxy hyx
    have htot : ccTotal t1 = ccTotal t2 := by
      rw [ccTotal, ccTotal]
      exact (h.map (fun p => p.2)).sum_eq
    rw [hsort, htot]

/-- All six section titles are always appended to the buffer. -/
lemma titles_mem_report (e : Env) (version2 : String) (keys : List Nat) :
    titleA ∈ report e version2 keys ∧ titleB ∈ report e version2 keys ∧
    titleC ∈ report e version2 keys ∧ titleD ∈ report e version2 keys ∧
    titleE ∈ report e version2 keys ∧ titleF version2 ∈ report e version2 keys := by
  rw [report, reportWithTally]
  refine ⟨?_, ?_, ?_, ?_, ?_, ?_⟩ <;> simp

/-! ## Example inputs for the closed witnesses and counterexamples -/

/-- Concrete tables: in the old snapshot codepoint 0x41 is PVALID (and no
other codepoint exists), in the new snapshot every codepoint is DISALLOWED
with general category Lu and an empty NFK list. -/
def exEnv : Env where
  props1 := fun n => if n = 65 then some "PVALID" else none
  props2 := fun _ => "DISALLOWED"
  names2 := fun _ => "LATIN CAPITAL LETTER A"
  gc1 := fun _ => "Lu"
  gc2 := fun _ => "Lu"
  nfk1 := fun _ => []
  nfk2 := fun _ => []

/-- A constant effective table, for the sparse-table counterexample. -/
def pX : Nat → String := fun _ => "X"

/-- Re-expansion of emitted ranges, read the way the round-trip claim reads
it: every codepoint inside each emitted `[start, end]` interval, paired with
that range's value. -/
def expandRanges (rs : List (Nat × Nat × String)) : List (Nat × String) :=
  rs.flatMap (fun r => (List.range' r.1 (r.2.1 + 1 - r.1)).map (fun c => (c, r.2.2)))

/-- All six dataset reads succeed and deliver the example tables. -/
def exSources : Sources where
  base1 := some exEnv.props1
  base2 := some ⟨exEnv.props2, exEnv.names2, [65]⟩
  gcSrc1 := some exEnv.gc1
  gcSrc2 := some exEnv.gc2
  nfkSrc1 := some exEnv.nfk1
  nfkSrc2 := some exEnv.nfk2

/-! ## The claims -/

/-- C1: over any codepoint pass, an Appendix A line (with its header the
first time) and a flag entry are produced exactly for the codepoints whose
old classification exists, differs from the new one, and is not UNASSIGNED
(`condA`); the grouped tally counts every changed pair (`condChanged` - old
exists and differs - with no sentinel exclusion): its total is the number of
all changed codepoints and its per-key counts the multiplicity of each
`old to new` key.  In particular an old=UNASSIGNED, new=PVALID codepoint
satisfies `condChanged` but not `condA`: it enters the tally total yet
produces no Appendix A line or flag. -/
theorem C1_appendix_a_and_tally (e : Env) (cps : List Nat) :
    ((phaseA e cps).lines =
      if cps.filter (condA e) = [] then []
      else headerA :: (cps.filter (condA e)).map (aLine e)) ∧
    (phaseA e cps).flags = (cps.filter (condA e)).map (mkFlag e) ∧
    ccTotal (phaseA e cps).cc = (cps.filter (condChanged e)).length ∧
    (∀ k : String, ccCount (phaseA e cps).cc k =
      ((cps.filter (condChanged e)).map (changeKey e)).count k) ∧
    (∀ cp : Nat, e.props1 cp = some "UNASSIGNED" → e.props2 cp = "PVALID" →
      condChanged e cp = true ∧ condA e cp = false) := by
  refine ⟨phaseA_lines e cps, phaseA_flags e cps, ?_, ?_, ?_⟩
  · rw [phaseA_cc, foldl_bump_ccTotal]
    simp [ccTotal]
  · intro k
    rw [phaseA_cc, foldl_bump_ccCount]
    simp [ccCount]
  · intro cp h1 h2
    refine ⟨?_, ?_⟩
    · simp only [condChanged, h1, h2]
      decide
    · simp only [condA, h1]
      simp

theorem C1_witness :
    (((phaseA exEnv [65]).lines =
      if [65].filter (condA exEnv) = [] then []
      else headerA :: ([65].filter (condA exEnv)).map (aLine exEnv)) ∧
    (phaseA exEnv [65]).flags = ([65].filter (condA exEnv)).map (mkFlag exEnv) ∧
    ccTotal (phaseA exEnv [65]).cc = ([65].filter (condChanged exEnv)).length ∧
    (∀ k : String, ccCount (phaseA exEnv [65]).cc k =
      (([65].filter (condChanged exEnv)).map (changeKey exEnv)).count k) ∧
    (∀ cp : Nat, exEnv.props1 cp = some "UNASSIGNED" → exEnv.props2 cp = "PVALID" →
      condChanged exEnv cp = true ∧ condA exEnv cp = false)) :=
  C1_appendix_a_and_tally exEnv [65]

/-- C2 counterexample: the claim says the new snapshot classification
mapping is unchanged after the Override Applier because the overwrites go to
a copy.  In the source (line 401) `properties2[codepoint] = "UNDER REVIEW"`
mutates the very map that was read, so after the run the flagged codepoint
0x41 holds UNDER REVIEW, not its pre-apply value DISALLOWED. -/
theorem C2_counterexample :
    effectiveProps exEnv (sortedCodepoints [65]) 65 ≠ exEnv.props2 65 := by
  decide

/-- C2 (amended): the Override Applier overwrites the new snapshot
classification mapping in place - no copy is made.  After the run the
mapping holds the pending-review sentinel at every flagged codepoint and its
prior value everywhere else; it equals its pre-apply state only when no
codepoint was flagged. -/
theorem C2_amended_overwrites_in_place (e : Env) (keys : List Nat) (cp : Nat) :
    effectiveProps e (sortedCodepoints keys) cp =
      if cp ∈ (appendixList e (sortedCodepoints keys)).map Entry.Number
      then "UNDER REVIEW" else e.props2 cp := by
  have hperm : ((sortedAppendix e (sortedCodepoints keys)).map Entry.Number).Perm
      ((appendixList e (sortedCodepoints keys)).map Entry.Number) :=
    (sortBy_perm entryLe _).map Entry.Number
  rw [effectiveProps, applyOverrides_eq]
  by_cases h : cp ∈ (appendixList e (sortedCodepoints keys)).map Entry.Number
  · rw [if_pos (hperm.mem_iff.mpr h), if_pos h]
  · rw [if_neg (fun hc => h (hperm.mem_iff.mp hc)), if_neg h]

theorem C2_witness :
    effectiveProps exEnv (sortedCodepoints [65]) 65 =
      if 65 ∈ (appendixList exEnv (sortedCodepoints [65])).map Entry.Number
      then "UNDER REVIEW" else exEnv.props2 65 :=
  C2_amended_overwrites_in_place exEnv [65] 65

/-- C3 counterexample: the compactor extends the current run across gaps in
the codepoint list, so on the sparse table with domain {1, 5} and constant
value X it emits the single range `[1, 5]; X`; re-expanding that range
yields codepoint 2 with value X although 2 is not in the table: unrestricted
re-expansion does not reconstruct the table. -/
theorem C3_counterexample :
    compactRanges pX [1, 5] = [(1, 5, "X")] ∧
    (2, "X") ∈ expandRanges (compactRanges pX [1, 5]) ∧
    2 ∉ [1, 5] := by
  decide

/-- C3 (amended): for every effective table (a value function on a strictly
ascending codepoint list), every codepoint OF THE TABLE lies in exactly one
emitted range and carries that range's value, so re-expansion restricted to
the table's domain reconstructs the table exactly; emitted ranges may
additionally span codepoints absent from the table. -/
theorem C3_amended_roundtrip_on_domain (p : Nat → String) (cps : List Nat)
    (hs : cps.Pairwise (· < ·)) (cp : Nat) (hcp : cp ∈ cps) :
    (compactRanges p cps).countP (fun r => decide (inRange cp r)) = 1 ∧
    ∀ r ∈ compactRanges p cps, inRange cp r → r.2.2 = p cp := by
  refine ⟨compactRanges_uniq p cps hs cp hcp, ?_⟩
  intro r hr hin
  exact (compactRanges_homog p cps hs r hr cp hcp hin).symm

theorem C3_witness :
    (compactRanges pX [1, 5]).countP (fun r => decide (inRange 5 r)) = 1 ∧
    ∀ r ∈ compactRanges pX [1, 5], inRange 5 r → r.2.2 = pX 5 :=
  C3_amended_roundtrip_on_domain pX [1, 5] (by decide) 5 (by decide)

/-- C4: the effective mapping built by the Override Applier sends every
codepoint occurring in the flagged list to the UNDER REVIEW sentinel,
whatever its original value, and every other codepoint to its original
value. -/
theorem C4_override_applier (p : Nat → String) (flags : List Entry) (cp : Nat) :
    applyOverrides p flags cp =
      if cp ∈ flags.map Entry.Number then "UNDER REVIEW" else p cp :=
  applyOverrides_eq p flags cp

theorem C4_witness :
    applyOverrides exEnv.props2 [mkFlag exEnv 65] 65 =
      if 65 ∈ [mkFlag exEnv 65].map Entry.Number then "UNDER REVIEW"
      else exEnv.props2 65 :=
  C4_override_applier exEnv.props2 [mkFlag exEnv 65] 65

/-- C5: over any codepoint pass, an Appendix D line and flag are produced
exactly for the codepoints satisfying `condD`, and `condD` holds iff the
codepoint existed before as UNASSIGNED, is now PVALID, and its new NFK list
has length strictly greater than one - so decomposition length exactly 1
never fires, and a codepoint absent from the old snapshot never fires. -/
theorem C5_appendix_d (e : Env) (cps : List Nat) :
    (phaseD e cps).lines = (cps.filter (condD e)).map (dLine e) ∧
    (phaseD e cps).flags = (cps.filter (condD e)).map (mkFlag e) ∧
    ∀ cp : Nat, condD e cp = true ↔
      (e.props1 cp = some "UNASSIGNED" ∧ e.props2 cp = "PVALID" ∧
        1 < (e.nfk2 cp).length) := by
  refine ⟨phaseD_lines e cps, phaseD_flags e cps, ?_⟩
  intro cp
  rcases h : e.props1 cp with _ | old
  · simp [condD, h]
  · simp [condD, h, and_assoc]

theorem C5_witness :
    ((phaseD exEnv [65]).lines = ([65].filter (condD exEnv)).map (dLine exEnv) ∧
    (phaseD exEnv [65]).flags = ([65].filter (condD exEnv)).map (mkFlag exEnv) ∧
    ∀ cp : Nat, condD exEnv cp = true ↔
      (exEnv.props1 cp = some "UNASSIGNED" ∧ exEnv.props2 cp = "PVALID" ∧
        1 < (exEnv.nfk2 cp).length)) :=
  C5_appendix_d exEnv [65]

/-- C6: over any codepoint pass, an Appendix B line (with its header the
first time) is produced exactly for the codepoints satisfying `condB` -
existed before, general category changed, and neither the old nor the new
derived classification is UNASSIGNED; and the flag list is built solely by
the A, C and D passes, so a Category B match never contributes a flag. -/
theorem C6_appendix_b_not_flagged (e : Env) (cps : List Nat) :
    ((phaseB e cps).lines =
      if cps.filter (condB e) = [] then []
      else headerB :: (cps.filter (condB e)).map (bLine e)) ∧
    appendixList e cps =
      (cps.filter (condA e)).map (mkFlag e) ++
      ((cps.filter (condC e)).map (mkFlag e) ++
        (cps.filter (condD e)).map (mkFlag e)) ∧
    ∀ cp : Nat, condB e cp = true ↔
      (e.gc1 cp ≠ e.gc2 cp ∧
        (∃ old, e.props1 cp = some old ∧ old ≠ "UNASSIGNED") ∧
        e.props2 cp ≠ "UNASSIGNED") := by
  refine ⟨phaseB_lines e cps, ?_, ?_⟩
  · rw [appendixList, phaseA_flags, phaseC_flags, phaseD_flags, List.append_assoc]
  · intro cp
    rcases h : e.props1 cp with _ | old
    · simp [condB, h]
    · simp [condB, h]
      tauto

theorem C6_witness :
    (((phaseB exEnv [65]).lines =
      if [65].filter (condB exEnv) = [] then []
      else headerB :: ([65].filter (condB exEnv)).map (bLine exEnv)) ∧
    appendixList exEnv [65] =
      ([65].filter (condA exEnv)).map (mkFlag exEnv) ++
      (([65].filter (condC exEnv)).map (mkFlag exEnv) ++
        ([65].filter (condD exEnv)).map (mkFlag exEnv)) ∧
    ∀ cp : Nat, condB exEnv cp = true ↔
      (exEnv.gc1 cp ≠ exEnv.gc2 cp ∧
        (∃ old, exEnv.props1 cp = some old ∧ old ≠ "UNASSIGNED") ∧
        exEnv.props2 cp ≠ "UNASSIGNED")) :=
  C6_appendix_b_not_flagged exEnv [65]

/-- C7: among the flag entries this program builds, `Name` is a function of
`Number`, so ANY permutation of the flag list that is sorted by the
`sort.Slice` comparator (codepoint ascending) is equal to the stable
insertion sort of the discovery-ordered list: entries with equal codepoint
are identical strings and appear exactly as in first-seen (A, then C, then
D) order.  The sorted Appendix E output is therefore unique even though
`sort.Slice` itself is not guaranteed stable. -/
theorem C7_appendix_e_sorted (e : Env) (keys : List Nat) (out : List Entry)
    (hperm : out.Perm (appendixList e (sortedCodepoints keys)))
    (hsorted : out.Pairwise entryLe) :
    out = sortedAppendix e (sortedCodepoints keys) := by
  have hshape := appendixList_shape e (sortedCodepoints keys)
  have hsorted2 := sortedAppendix_pairwise e (sortedCodepoints keys)
  have hperm2 : out.Perm (sortedAppendix e (sortedCodepoints keys)) :=
    hperm.trans (sortBy_perm entryLe _).symm
  refine pairwise_perm_eq entryLe out _ hperm2 hsorted hsorted2 ?_
  intro x hx y hy hxy hyx
  have hx' := hshape x (hperm.mem_iff.mp hx)
  have hy' := hshape y (hperm.mem_iff.mp hy)
  have hnum : x.Number = y.Number := Nat.le_antisymm hxy hyx
  rw [hx', hy', hnum]

theorem C7_witness :
    [mkFlag exEnv 65] = sortedAppendix exEnv (sortedCodepoints [65]) :=
  C7_appendix_e_sorted exEnv [65] [mkFlag exEnv 65] (by decide) (by decide)

/-- C8: in the Appendix F output of a run (compaction of the effective
table over the sorted key list of the new snapshot), consecutive emitted
ranges always carry different values, and every codepoint of the table that
falls inside an emitted range has exactly that range's value. -/
theorem C8_appendix_f_invariants (e : Env) (keys : List Nat) (hnd : keys.Nodup) :
    (compactRanges (effectiveProps e (sortedCodepoints keys))
      (sortedCodepoints keys)).Chain' valNe ∧
    ∀ r ∈ compactRanges (effectiveProps e (sortedCodepoints keys))
        (sortedCodepoints keys),
      ∀ cp ∈ sortedCodepoints keys, inRange cp r →
        effectiveProps e (sortedCodepoints keys) cp = r.2.2 := by
  have hlt := sortedCodepoints_lt_of_nodup keys hnd
  exact ⟨compactRanges_chain _ _ hlt, compactRanges_homog _ _ hlt⟩

theorem C8_witness :
    (compactRanges (effectiveProps exEnv (sortedCodepoints [65, 66]))
      (sortedCodepoints [65, 66])).Chain' valNe ∧
    ∀ r ∈ compactRanges (effectiveProps exEnv (sortedCodepoints [65, 66]))
        (sortedCodepoints [65, 66]),
      ∀ cp ∈ sortedCodepoints [65, 66], inRange cp r →
        effectiveProps exEnv (sortedCodepoints [65, 66]) cp = r.2.2 :=
  C8_appendix_f_invariants exEnv [65, 66] (by decide)

/-- C9: the buffer is printed only after every dataset read has succeeded
(each failed read returns before line 448), so a report is produced iff all
six sources are available, and whenever it is produced it contains all six
section titles: the appendices appear all together or not at all. -/
theorem C9_all_or_nothing (s : Sources) (version2 : String) :
    ((compareVersionsRun s version2).isSome ↔
      (s.base1.isSome ∧ s.base2.isSome ∧ s.gcSrc1.isSome ∧ s.gcSrc2.isSome ∧
        s.nfkSrc1.isSome ∧ s.nfkSrc2.isSome)) ∧
    ∀ buf, compareVersionsRun s version2 = some buf →
      titleA ∈ buf ∧ titleB ∈ buf ∧ titleC ∈ buf ∧ titleD ∈ buf ∧
        titleE ∈ buf ∧ titleF version2 ∈ buf := by
  rcases s with ⟨b1, b2, g1, g2, f1, f2⟩
  constructor
  · rcases b1 with _ | p1 <;> rcases b2 with _ | b2 <;> rcases g1 with _ | g1 <;>
      rcases g2 with _ | g2 <;> rcases f1 with _ | f1 <;> rcases f2 with _ | f2 <;>
      simp [compareVersionsRun]
  · intro buf hbuf
    rcases b1 with _ | p1 <;> rcases b2 with _ | b2 <;> rcases g1 with _ | g1 <;>
      rcases g2 with _ | g2 <;> rcases f1 with _ | f1 <;> rcases f2 with _ | f2 <;>
      simp [compareVersionsRun] at hbuf
    subst hbuf
    exact titles_mem_report _ version2 _

theorem C9_witness :
    titleA ∈ report exEnv "16.0.0" [65] ∧ titleB ∈ report exEnv "16.0.0" [65] ∧
    titleC ∈ report exEnv "16.0.0" [65] ∧ titleD ∈ report exEnv "16.0.0" [65] ∧
    titleE ∈ report exEnv "16.0.0" [65] ∧ titleF "16.0.0" ∈ report exEnv "16.0.0" [65] :=
  (C9_all_or_nothing exSources "16.0.0").2 (report exEnv "16.0.0" [65]) rfl

/-- C10: the report text is a function of the snapshot contents alone: if
two runs walk the unordered key map of the new snapshot in different orders
(`k1`, `k2` are permutations of each other) and walk the grouped-change
tally map in different orders (`t1`, `t2` are permutations of the computed
tally), the two report buffers are character-for-character identical -
codepoints are sorted numerically before the main pass and the summary
lines are sorted lexicographically before emission. -/
theorem C10_deterministic_report (e : Env) (version2 : String)
    (k1 k2 : List Nat) (t1 t2 : List (String × Nat))
    (hk : k1.Perm k2)
    (ht1 : t1.Perm (phaseA e (sortedCodepoints k1)).cc)
    (ht2 : t2.Perm (phaseA e (sortedCodepoints k2)).cc) :
    reportWithTally e version2 k1 t1 = reportWithTally e version2 k2 t2 := by
  have hkeq : sortedCodepoints k1 = sortedCodepoints k2 := by
    refine pairwise_perm_eq (· ≤ · : Nat → Nat → Prop) _ _
      ((sortedCodepoints_perm k1).trans (hk.trans (sortedCodepoints_perm k2).symm))
      (sortedCodepoints_pairwise k1) (sortedCodepoints_pairwise k2) ?_
    intro x _ y _ hxy hyx
    exact Nat.le_antisymm hxy hyx
  have ht2' : t2.Perm (phaseA e (sortedCodepoints k1)).cc := by
    rw [hkeq]
    exact ht2
  have hsum : summarySeg t1 = summarySeg t2 :=
    summarySeg_perm t1 t2 (ht1.trans ht2'.symm)
  have h1 : reportWithTally e version2 k1 t1 = reportWithTally e version2 k2 t1 := by
    rw [reportWithTally, reportWithTally, hkeq]
  have h2 : reportWithTally e version2 k2 t1 = reportWithTally e version2 k2 t2 := by
    rw [reportWithTally, reportWithTally, hsum]
  exact h1.trans h2

theorem C10_witness :
    reportWithTally exEnv "16.0.0" [66, 65] [("PVALID to DISALLOWED", 1)] =
      reportWithTally exEnv "16.0.0" [65, 66] [("PVALID to DISALLOWED", 1)] :=
  C10_deterministic_report exEnv "16.0.0" [66, 65] [65, 66]
    [("PVALID to DISALLOWED", 1)] [("PVALID to DISALLOWED", 1)]
    (by decide) (by decide) (by decide)

end CheckChanges
